import Mathlib

/-!
Shallow embedding of `src/browser/Color.ts` (xterm.js color helpers).

Conventions of the embedding:
* A JS 32-bit unsigned packed color is a `ℕ` (always reduced `% 2 ^ 32` where
  the source forces unsignedness with `>>> 0`).  The JS signed shifts `>>`
  followed by `& 0xFF` extract the same bytes as unsigned `>>>` with `&&& 0xFF`
  on `ℕ`, because the mask discards every sign-extension bit, so channel
  extraction is modeled with `>>>`/`&&&` on `ℕ`.
* JS floating point arithmetic is modeled exactly over `ℚ` where the source
  only adds, subtracts, multiplies, divides and rounds small integer-derived
  values (blend factors, the `* 0.1` loop steps: for every channel value
  `0 ≤ c ≤ 255` the double results of `c * 0.1` and `(255 - c) * 0.1` round,
  floor and ceil exactly as the rationals `c / 10` and `(255 - c) / 10` do),
  and over `ℝ` where the source computes `Math.pow(x, 2.4)` (WCAG luminance),
  which has no exact finite representation.  `JS Math.round x = ⌊x + 1/2⌋`
  is Mathlib's `round`.
* The `while` loop of `increaseLuminance` does not terminate on all inputs,
  so both enforcement loops that can run under `ensureContrastRatio` are given
  an explicit iteration budget (`fuel`); `none` means the loop is still
  running after `fuel` re-checks of its guard.
-/

/-- The `IColor` record of `browser/Types`: a css string plus a packed
32-bit rgba value. -/
structure IColor where
  css : String
  rgba : ℕ
deriving DecidableEq, Repr

/-- One lowercase hex digit, as produced by JS `Number.prototype.toString(16)`. -/
def hexChar (n : ℕ) : Char :=
  if n < 10 then Char.ofNat ('0'.toNat + n) else Char.ofNat ('a'.toNat + (n - 10))

/-- Base-16 digit list of `n`, most significant first.  Structured on an
explicit bound so that the kernel can evaluate it; `natToHex` instantiates the
bound with `n + 1`, which always suffices since the value shrinks by a factor
of 16 every step. -/
def natToHexList : ℕ → ℕ → List Char
  | 0, _ => []
  | fuel + 1, n =>
    if n < 16 then [hexChar n] else natToHexList fuel (n / 16) ++ [hexChar (n % 16)]

/-- JS `c.toString(16)` for a nonnegative integer `c`. -/
def natToHex (n : ℕ) : String :=
  ⟨natToHexList (n + 1) n⟩

/-- Source `toPaddedHex`: `const s = c.toString(16); return s.length < 2 ? '0' + s : s;` -/
def toPaddedHex (c : ℕ) : String :=
  let s := natToHex c
  if s.length < 2 then "0" ++ s else s

/-- Source `toCss`: `` `#${toPaddedHex(r)}${toPaddedHex(g)}${toPaddedHex(b)}` ``. -/
def toCss (r g b : ℕ) : String :=
  "#" ++ toPaddedHex r ++ toPaddedHex g ++ toPaddedHex b

/-- Source `toRgba`: `(r << 24 | g << 16 | b << 8 | a) >>> 0`.  The source
declares the default `a = 0xFF`; call sites of the embedding pass it
explicitly.  `>>> 0` (reinterpret the signed 32-bit result as unsigned) is
`% 2 ^ 32` on the bit pattern. -/
def toRgba (r g b a : ℕ) : ℕ :=
  (r <<< 24 ||| g <<< 16 ||| b <<< 8 ||| a) % 2 ^ 32

/-- Numeric value of one hex digit, upper or lower case, as accepted by JS
`parseInt(-, 16)`. -/
def hexDigitVal (c : Char) : Option ℕ :=
  if '0' ≤ c ∧ c ≤ '9' then some (c.toNat - '0'.toNat)
  else if 'a' ≤ c ∧ c ≤ 'f' then some (c.toNat - 'a'.toNat + 10)
  else if 'A' ≤ c ∧ c ≤ 'F' then some (c.toNat - 'A'.toNat + 10)
  else none

/-- Strip the optional `0x` / `0X` marker that JS `parseInt(-, 16)` skips. -/
def dropHexMark : List Char → List Char
  | '0' :: 'x' :: t => t
  | '0' :: 'X' :: t => t
  | t => t

/-- Strip the optional leading sign accepted by JS `parseInt`. -/
def dropSign : List Char → List Char
  | '+' :: t => t
  | '-' :: t => t
  | t => t

/-- JS `parseInt(s, 16)`: skip leading whitespace, read an optional sign and
an optional `0x` marker, then the longest run of hex digits; no digits at all
gives `NaN`, modeled as `none`.  (Doubles lose precision above `2 ^ 53`; no
caller of this model goes near that.) -/
def jsParseIntHex (s : String) : Option ℤ :=
  let cs := s.toList.dropWhile Char.isWhitespace
  let sign : ℤ := if cs.head? = some '-' then -1 else 1
  let ds := (dropHexMark (dropSign cs)).takeWhile fun c => (hexDigitVal c).isSome
  if ds.isEmpty then none
  else some (sign * (ds.foldl (fun acc c => acc * 16 + (hexDigitVal c).getD 0) 0 : ℕ))

/-- Source `fromCss`: `(parseInt(css.slice(1), 16) << 8 | 0xFF) >>> 0`.
`<< 8` converts the parsed double through `ToInt32` (NaN becomes `0`, finite
values are taken `mod 2 ^ 32` on the bit pattern) and shifts, `| 0xFF` sets
the low byte, `>>> 0` reinterprets the pattern as unsigned. -/
def fromCss (css : String) : IColor :=
  { css := css
    rgba := ((((jsParseIntHex (css.drop 1)).getD 0 * 2 ^ 8) % 2 ^ 32).toNat ||| 0xFF) }

/-- A lowercase hex digit, the character class `[0-9a-f]`. -/
def isLowerHexDigit (c : Char) : Prop :=
  ('0' ≤ c ∧ c ≤ '9') ∨ ('a' ≤ c ∧ c ≤ 'f')

/-- Round-trip specification for `toCss`/`fromCss` (claim C6): the css string
matches `#[0-9a-f]{6}`, parsing it back recovers the three channel bytes,
the packed alpha byte is always 255, and the css field of the parsed color is
the input string itself. -/
def CssRoundTrip (r g b : ℕ) : Prop :=
  ((toCss r g b).toList.length = 7 ∧ (toCss r g b).toList.head? = some '#' ∧
    ∀ c ∈ (toCss r g b).toList.drop 1, isLowerHexDigit c) ∧
  ((fromCss (toCss r g b)).rgba >>> 24) &&& 0xFF = r ∧
  ((fromCss (toCss r g b)).rgba >>> 16) &&& 0xFF = g ∧
  ((fromCss (toCss r g b)).rgba >>> 8) &&& 0xFF = b ∧
  (fromCss (toCss r g b)).rgba &&& 0xFF = 255 ∧
  (fromCss (toCss r g b)).css = toCss r g b

/-- Source `blend`.  The blend factor `a = (fg.rgba & 0xFF) / 255` and the
per-channel interpolation are exact in `ℚ`; `Math.round x = ⌊x + 1/2⌋` is
Mathlib's `round`.  The blended channels are provably inside `[0, 255]`
(see `blend_spec`), so the `Int.toNat` coercions at the `toCss`/`toRgba`
call sites are lossless. -/
def blend (bg fg : IColor) : IColor :=
  let a : ℚ := (fg.rgba &&& 0xFF : ℕ) / 255
  if a = 1 then
    { css := fg.css, rgba := fg.rgba }
  else
    let fgR : ℕ := (fg.rgba >>> 24) &&& 0xFF
    let fgG : ℕ := (fg.rgba >>> 16) &&& 0xFF
    let fgB : ℕ := (fg.rgba >>> 8) &&& 0xFF
    let bgR : ℕ := (bg.rgba >>> 24) &&& 0xFF
    let bgG : ℕ := (bg.rgba >>> 16) &&& 0xFF
    let bgB : ℕ := (bg.rgba >>> 8) &&& 0xFF
    let r : ℤ := bgR + round (((fgR : ℚ) - bgR) * a)
    let g : ℤ := bgG + round (((fgG : ℚ) - bgG) * a)
    let b : ℤ := bgB + round (((fgB : ℚ) - bgB) * a)
    { css := toCss r.toNat g.toNat b.toNat
      rgba := toRgba r.toNat g.toNat b.toNat 0xFF }

/-- Pointwise specification of `blend` in the translucent case (claim C5):
each output channel is `bg_channel + round((fg_channel - bg_channel) * a)`,
the rounded value is the unique nearest integer (strictly within 1/2 of the
exact value, so half-away-from-zero and half-to-even both agree with it),
every channel lands in [0, 255] with no clamping, the packed alpha byte of
the result is 255, and a zero foreground alpha byte reproduces the
background's channels. -/
def BlendSpec (bg fg : IColor) : Prop :=
  let al := fg.rgba &&& 0xFF
  let a : ℚ := (al : ℚ) / 255
  let fgR : ℕ := (fg.rgba >>> 24) &&& 0xFF
  let fgG : ℕ := (fg.rgba >>> 16) &&& 0xFF
  let fgB : ℕ := (fg.rgba >>> 8) &&& 0xFF
  let bgR : ℕ := (bg.rgba >>> 24) &&& 0xFF
  let bgG : ℕ := (bg.rgba >>> 16) &&& 0xFF
  let bgB : ℕ := (bg.rgba >>> 8) &&& 0xFF
  let rV : ℤ := bgR + round (((fgR : ℚ) - bgR) * a)
  let gV : ℤ := bgG + round (((fgG : ℚ) - bgG) * a)
  let bV : ℤ := bgB + round (((fgB : ℚ) - bgB) * a)
  ((((blend bg fg).rgba >>> 24) &&& 0xFF : ℕ) : ℤ) = rV ∧
  ((((blend bg fg).rgba >>> 16) &&& 0xFF : ℕ) : ℤ) = gV ∧
  ((((blend bg fg).rgba >>> 8) &&& 0xFF : ℕ) : ℤ) = bV ∧
  (0 ≤ rV ∧ rV ≤ 255) ∧ (0 ≤ gV ∧ gV ≤ 255) ∧ (0 ≤ bV ∧ bV ≤ 255) ∧
  (blend bg fg).rgba &&& 0xFF = 255 ∧
  |((fgR : ℚ) - bgR) * a - (round (((fgR : ℚ) - bgR) * a) : ℤ)| < 1 / 2 ∧
  |((fgG : ℚ) - bgG) * a - (round (((fgG : ℚ) - bgG) * a) : ℤ)| < 1 / 2 ∧
  |((fgB : ℚ) - bgB) * a - (round (((fgB : ℚ) - bgB) * a) : ℤ)| < 1 / 2 ∧
  (al = 0 →
    ((blend bg fg).rgba >>> 24) &&& 0xFF = bgR ∧
    ((blend bg fg).rgba >>> 16) &&& 0xFF = bgG ∧
    ((blend bg fg).rgba >>> 8) &&& 0xFF = bgB)

/-- Source `rgbRelativeLuminance2` (WCAG 2.0 relative luminance).
`Math.pow` is real exponentiation, hence the value lives in `ℝ`. -/
noncomputable def rgbRelativeLuminance2 (r g b : ℕ) : ℝ :=
  let rs : ℝ := r / 255
  let gs : ℝ := g / 255
  let bs : ℝ := b / 255
  let rr : ℝ := if rs ≤ 0.03928 then rs / 12.92 else ((rs + 0.055) / 1.055) ^ (2.4 : ℝ)
  let rg : ℝ := if gs ≤ 0.03928 then gs / 12.92 else ((gs + 0.055) / 1.055) ^ (2.4 : ℝ)
  let rb : ℝ := if bs ≤ 0.03928 then bs / 12.92 else ((bs + 0.055) / 1.055) ^ (2.4 : ℝ)
  rr * 0.2126 + rg * 0.7152 + rb * 0.0722

/-- Source `rgbRelativeLuminance`: unpack a 24-bit rgb value (alpha already
shifted out) and forward in canonical (R, G, B) order. -/
noncomputable def rgbRelativeLuminance (rgb : ℕ) : ℝ :=
  rgbRelativeLuminance2 ((rgb >>> 16) &&& 0xFF) ((rgb >>> 8) &&& 0xFF) (rgb &&& 0xFF)

/-- Source `contrastRatio`. -/
noncomputable def contrastRatio (l1 l2 : ℝ) : ℝ :=
  if l1 < l2 then (l2 + 0.05) / (l1 + 0.05) else (l1 + 0.05) / (l2 + 0.05)

/-- One channel update of the `reduceLuminance` loop:
`fgR -= Math.max(0, Math.ceil(fgR * 0.1))`.  For `0 ≤ c ≤ 255` the double
`c * 0.1` ceils exactly like the rational `c * (1/10)`.  The JS subtraction
never goes below zero (`⌈c/10⌉ ≤ c`), so `ℕ` subtraction is faithful. -/
def reduceStep (c : ℕ) : ℕ :=
  c - (max 0 ⌈(c : ℚ) * 0.1⌉).toNat

/-- One channel update of the `increaseLuminance` loop:
`fgR = Math.min(0xFF, fgR + Math.floor((255 - fgR) * 0.1))`. -/
def increaseStep (c : ℕ) : ℕ :=
  min 0xFF (c + (⌊((255 : ℚ) - c) * 0.1⌋).toNat)

theorem reduceStep_le (c : ℕ) : reduceStep c ≤ c :=
  Nat.sub_le _ _

theorem reduceStep_lt {c : ℕ} (hc : 0 < c) : reduceStep c < c := by
  have h1 : (0 : ℤ) < ⌈(c : ℚ) * 0.1⌉ := by
    rw [Int.ceil_pos]
    positivity
  have h2 : 1 ≤ (max 0 ⌈(c : ℚ) * 0.1⌉).toNat := by omega
  unfold reduceStep
  omega

/-- The `while` loop of `reduceLuminance` (lines 114–120).  Its guard
recomputes the foreground luminance as
`rgbRelativeLuminance2(fgR, fgB, fgG)` — green and blue swapped — exactly as
the source does.  The loop terminates because every positive channel strictly
decreases. -/
noncomputable def reduceLuminanceLoop (bgR bgG bgB : ℕ) (ratio : ℝ) (fgR fgG fgB : ℕ) :
    ℕ × ℕ × ℕ :=
  if h : contrastRatio (rgbRelativeLuminance2 fgR fgB fgG) (rgbRelativeLuminance2 bgR bgG bgB)
        < ratio ∧ (0 < fgR ∨ 0 < fgG ∨ 0 < fgB) then
    reduceLuminanceLoop bgR bgG bgB ratio (reduceStep fgR) (reduceStep fgG) (reduceStep fgB)
  else
    (fgR, fgG, fgB)
termination_by fgR + fgG + fgB
decreasing_by
  have e1 := reduceStep_le fgR
  have e2 := reduceStep_le fgG
  have e3 := reduceStep_le fgB
  rcases h.2 with hp | hp | hp
  · have := reduceStep_lt hp; omega
  · have := reduceStep_lt hp; omega
  · have := reduceStep_lt hp; omega

/-- Source `reduceLuminance`. -/
noncomputable def reduceLuminance (bg fg : IColor) (ratio : ℝ) : IColor :=
  let bgR := (bg.rgba >>> 24) &&& 0xFF
  let bgG := (bg.rgba >>> 16) &&& 0xFF
  let bgB := (bg.rgba >>> 8) &&& 0xFF
  let fgR := (fg.rgba >>> 24) &&& 0xFF
  let fgG := (fg.rgba >>> 16) &&& 0xFF
  let fgB := (fg.rgba >>> 8) &&& 0xFF
  let t := reduceLuminanceLoop bgR bgG bgB ratio fgR fgG fgB
  { css := toCss t.1 t.2.1 t.2.2
    rgba := toRgba t.1 t.2.1 t.2.2 0xFF }

/-- The `while` loop of `increaseLuminance` (lines 137–143), with the same
swapped-argument guard.  This loop does NOT terminate on all inputs (each
channel increment `⌊(255 - c)/10⌋` is `0` for `246 ≤ c ≤ 254`), so it carries
an explicit budget: `none` means the guard was still true after `fuel`
re-checks. -/
noncomputable def increaseLuminanceLoop (bgR bgG bgB : ℕ) (ratio : ℝ) (fuel fgR fgG fgB : ℕ) :
    Option (ℕ × ℕ × ℕ) :=
  if contrastRatio (rgbRelativeLuminance2 fgR fgB fgG) (rgbRelativeLuminance2 bgR bgG bgB)
        < ratio ∧ (fgR < 0xFF ∨ fgG < 0xFF ∨ fgB < 0xFF) then
    match fuel with
    | 0 => none
    | fuel' + 1 =>
      increaseLuminanceLoop bgR bgG bgB ratio fuel'
        (increaseStep fgR) (increaseStep fgG) (increaseStep fgB)
  else
    some (fgR, fgG, fgB)
termination_by fuel

/-- Source `increaseLuminance`, with the loop budget made explicit. -/
noncomputable def increaseLuminance (bg fg : IColor) (ratio : ℝ) (fuel : ℕ) : Option IColor :=
  let bgR := (bg.rgba >>> 24) &&& 0xFF
  let bgG := (bg.rgba >>> 16) &&& 0xFF
  let bgB := (bg.rgba >>> 8) &&& 0xFF
  let fgR := (fg.rgba >>> 24) &&& 0xFF
  let fgG := (fg.rgba >>> 16) &&& 0xFF
  let fgB := (fg.rgba >>> 8) &&& 0xFF
  (increaseLuminanceLoop bgR bgG bgB ratio fuel fgR fgG fgB).map fun t =>
    { css := toCss t.1 t.2.1 t.2.2
      rgba := toRgba t.1 t.2.1 t.2.2 0xFF }

/-- Source `ensureContrastRatio`.  The outer `Option` is the embedding's
divergence layer (`none` = the increase loop exceeded its budget); the inner
`Option IColor` is the function's own return value, `none` standing for the
JS `undefined` ("no adjustment needed") sentinel. -/
noncomputable def ensureContrastRatio (bg fg : IColor) (ratio : ℝ) (fuel : ℕ) :
    Option (Option IColor) :=
  let bgL := rgbRelativeLuminance (bg.rgba >>> 8)
  let fgL := rgbRelativeLuminance (fg.rgba >>> 8)
  let cr := contrastRatio bgL fgL
  if cr < ratio then
    if fgL < bgL then
      some (some (reduceLuminance bg fg ratio))
    else
      (increaseLuminance bg fg ratio fuel).map some
  else
    some none

/-! ### Byte-level helper lemmas -/

theorem and_255_eq_mod (n : ℕ) : n &&& 0xFF = n % 256 := by
  have h := Nat.and_pow_two_sub_one_eq_mod n 8
  norm_num at h
  exact h

theorem toRgba_eq (r g b a : ℕ) (hr : r ≤ 255) (hg : g ≤ 255) (hb : b ≤ 255)
    (ha : a ≤ 255) : toRgba r g b a = ((r * 256 + g) * 256 + b) * 256 + a := by
  unfold toRgba
  rw [Nat.shiftLeft_eq, Nat.shiftLeft_eq, Nat.shiftLeft_eq, Nat.or_assoc, Nat.or_assoc]
  rw [show b * 2 ^ 8 = 2 ^ 8 * b from Nat.mul_comm _ _,
    ← Nat.mul_add_lt_is_or (show a < 2 ^ 8 by omega) b]
  rw [show g * 2 ^ 16 = 2 ^ 16 * g from Nat.mul_comm _ _,
    ← Nat.mul_add_lt_is_or (show 2 ^ 8 * b + a < 2 ^ 16 by omega) g]
  rw [show r * 2 ^ 24 = 2 ^ 24 * r from Nat.mul_comm _ _,
    ← Nat.mul_add_lt_is_or (show 2 ^ 16 * g + (2 ^ 8 * b + a) < 2 ^ 24 by omega) r]
  rw [Nat.mod_eq_of_lt (show 2 ^ 24 * r + (2 ^ 16 * g + (2 ^ 8 * b + a)) < 2 ^ 32 by omega)]
  omega

theorem toRgba_byteR (r g b a : ℕ) (hr : r ≤ 255) (hg : g ≤ 255) (hb : b ≤ 255)
    (ha : a ≤ 255) : (toRgba r g b a >>> 24) &&& 0xFF = r := by
  rw [toRgba_eq r g b a hr hg hb ha, Nat.shiftRight_eq_div_pow, and_255_eq_mod]
  omega

theorem toRgba_byteG (r g b a : ℕ) (hr : r ≤ 255) (hg : g ≤ 255) (hb : b ≤ 255)
    (ha : a ≤ 255) : (toRgba r g b a >>> 16) &&& 0xFF = g := by
  rw [toRgba_eq r g b a hr hg hb ha, Nat.shiftRight_eq_div_pow, and_255_eq_mod]
  omega

theorem toRgba_byteB (r g b a : ℕ) (hr : r ≤ 255) (hg : g ≤ 255) (hb : b ≤ 255)
    (ha : a ≤ 255) : (toRgba r g b a >>> 8) &&& 0xFF = b := by
  rw [toRgba_eq r g b a hr hg hb ha, Nat.shiftRight_eq_div_pow, and_255_eq_mod]
  omega

theorem toRgba_byteA (r g b a : ℕ) (hr : r ≤ 255) (hg : g ≤ 255) (hb : b ≤ 255)
    (ha : a ≤ 255) : toRgba r g b a &&& 0xFF = a := by
  rw [toRgba_eq r g b a hr hg hb ha, and_255_eq_mod]
  omega

theorem and_255_le (n : ℕ) : n &&& 0xFF ≤ 255 := by
  rw [and_255_eq_mod]
  omega

/-! ### Claim theorems (first batch) -/

/-- C8: `contrastRatio l1 l2` equals `(max l1 l2 + 0.05) / (min l1 l2 + 0.05)`
for nonnegative luminances, is symmetric, equals 1 on equal arguments, and
`contrastRatio 0 1 = 21`. -/
theorem contrastRatio_spec :
    (∀ l1 l2 : ℝ, 0 ≤ l1 → 0 ≤ l2 →
      contrastRatio l1 l2 = (max l1 l2 + 0.05) / (min l1 l2 + 0.05)) ∧
    (∀ l1 l2 : ℝ, contrastRatio l1 l2 = contrastRatio l2 l1) ∧
    (∀ l : ℝ, 0 ≤ l → contrastRatio l l = 1) ∧
    contrastRatio 0 1 = 21 := by
  refine ⟨?_, ?_, ?_, ?_⟩
  · intro l1 l2 _ _
    unfold contrastRatio
    rcases lt_or_le l1 l2 with h | h
    · rw [if_pos h, max_eq_right h.le, min_eq_left h.le]
    · rw [if_neg (not_lt.2 h), max_eq_left h, min_eq_right h]
  · intro l1 l2
    unfold contrastRatio
    rcases lt_trichotomy l1 l2 with h | h | h
    · rw [if_pos h, if_neg (not_lt.2 h.le)]
    · subst h
      rfl
    · rw [if_neg (not_lt.2 h.le), if_pos h]
  · intro l hl
    unfold contrastRatio
    rw [if_neg (lt_irrefl l)]
    have : l + 0.05 ≠ 0 := by positivity
    field_simp
  · unfold contrastRatio
    rw [if_pos (by norm_num : (0 : ℝ) < 1)]
    norm_num

/-- Witness for C8 at concrete luminances. -/
theorem contrastRatio_spec_witness :
    contrastRatio 0 1 = (max (0 : ℝ) 1 + 0.05) / (min (0 : ℝ) 1 + 0.05) ∧
    contrastRatio (0.3 : ℝ) (0.3 : ℝ) = 1 ∧ contrastRatio 0 1 = 21 :=
  ⟨contrastRatio_spec.1 0 1 (by norm_num) (by norm_num),
    contrastRatio_spec.2.2.1 0.3 (by norm_num), contrastRatio_spec.2.2.2⟩

/-- C7: when the foreground's packed alpha byte is 255 (`a === 1` in the
source), `blend` returns the foreground unchanged — same css string and same
packed value, with no blending arithmetic. -/
theorem blend_alpha255_id (bg fg : IColor) (h : fg.rgba &&& 0xFF = 255) :
    blend bg fg = fg := by
  unfold blend
  rw [h]
  norm_num

/-- Witness for C7: a half-gray background and a fully opaque white
foreground. -/
theorem blend_alpha255_id_witness :
    blend ⟨"#808080", 0x808080FF⟩ ⟨"#ffffff", 0xFFFFFFFF⟩ = ⟨"#ffffff", 0xFFFFFFFF⟩ :=
  blend_alpha255_id _ _ (by decide)

/-- C10: `ensureContrastRatio`, `reduceLuminance` and `increaseLuminance`
read only the packed `rgba` fields of their color arguments; runs on inputs
with equal `rgba` but arbitrarily different (even out-of-sync) `css` strings
return identical results. -/
theorem contrast_depends_only_on_rgba (bg bg' fg fg' : IColor) (ratio : ℝ) (fuel : ℕ)
    (hbg : bg.rgba = bg'.rgba) (hfg : fg.rgba = fg'.rgba) :
    ensureContrastRatio bg fg ratio fuel = ensureContrastRatio bg' fg' ratio fuel ∧
    reduceLuminance bg fg ratio = reduceLuminance bg' fg' ratio ∧
    increaseLuminance bg fg ratio fuel = increaseLuminance bg' fg' ratio fuel := by
  have h1 : reduceLuminance bg fg ratio = reduceLuminance bg' fg' ratio := by
    unfold reduceLuminance
    rw [hbg, hfg]
  have h2 : increaseLuminance bg fg ratio fuel = increaseLuminance bg' fg' ratio fuel := by
    unfold increaseLuminance
    rw [hbg, hfg]
  refine ⟨?_, h1, h2⟩
  unfold ensureContrastRatio
  rw [hbg, hfg, h1, h2]

/-- Witness for C10: same packed values, css strings that disagree with each
other and with the packed value. -/
theorem contrast_depends_only_on_rgba_witness :
    ensureContrastRatio ⟨"garbage", 0x112233FF⟩ ⟨"", 0x445566FF⟩ 4.5 9 =
      ensureContrastRatio ⟨"#112233", 0x112233FF⟩ ⟨"#ffffff", 0x445566FF⟩ 4.5 9 ∧
    reduceLuminance ⟨"garbage", 0x112233FF⟩ ⟨"", 0x445566FF⟩ 4.5 =
      reduceLuminance ⟨"#112233", 0x112233FF⟩ ⟨"#ffffff", 0x445566FF⟩ 4.5 ∧
    increaseLuminance ⟨"garbage", 0x112233FF⟩ ⟨"", 0x445566FF⟩ 4.5 9 =
      increaseLuminance ⟨"#112233", 0x112233FF⟩ ⟨"#ffffff", 0x445566FF⟩ 4.5 9 :=
  contrast_depends_only_on_rgba _ _ _ _ _ _ rfl rfl

/-! ### Luminance and contrast bounds -/

theorem srgb_linear_bounds {s : ℝ} (h0 : 0 ≤ s) (h1 : s ≤ 1) :
    0 ≤ (if s ≤ 0.03928 then s / 12.92 else ((s + 0.055) / 1.055) ^ (2.4 : ℝ)) ∧
    (if s ≤ 0.03928 then s / 12.92 else ((s + 0.055) / 1.055) ^ (2.4 : ℝ)) ≤ 1 := by
  split_ifs with h
  · constructor
    · positivity
    · rw [div_le_one (by norm_num)]
      linarith
  · constructor
    · exact Real.rpow_nonneg (div_nonneg (by linarith) (by norm_num)) _
    · exact Real.rpow_le_one (div_nonneg (by linarith) (by norm_num))
        (by rw [div_le_one (by norm_num)]; linarith) (by norm_num)

theorem rgbRelativeLuminance2_bounds (r g b : ℕ) (hr : r ≤ 255) (hg : g ≤ 255)
    (hb : b ≤ 255) :
    0 ≤ rgbRelativeLuminance2 r g b ∧ rgbRelativeLuminance2 r g b ≤ 1 := by
  have hr' : ((r : ℝ) / 255) ≤ 1 := by
    rw [div_le_one (by norm_num)]
    exact_mod_cast hr
  have hg' : ((g : ℝ) / 255) ≤ 1 := by
    rw [div_le_one (by norm_num)]
    exact_mod_cast hg
  have hb' : ((b : ℝ) / 255) ≤ 1 := by
    rw [div_le_one (by norm_num)]
    exact_mod_cast hb
  have h1 := srgb_linear_bounds (by positivity) hr'
  have h2 := srgb_linear_bounds (by positivity) hg'
  have h3 := srgb_linear_bounds (by positivity) hb'
  simp only [rgbRelativeLuminance2]
  constructor
  · nlinarith [h1.1, h2.1, h3.1]
  · nlinarith [h1.2, h2.2, h3.2, h1.1, h2.1, h3.1]

theorem contrastRatio_le_21 {l1 l2 : ℝ} (h10 : 0 ≤ l1) (h11 : l1 ≤ 1)
    (h20 : 0 ≤ l2) (h21 : l2 ≤ 1) : contrastRatio l1 l2 ≤ 21 := by
  unfold contrastRatio
  split_ifs with h
  · rw [div_le_iff (by linarith)]
    nlinarith
  · rw [div_le_iff (by linarith)]
    nlinarith

/-! ### Divergence of the increase loop -/

theorem increaseStep_le_254 {c : ℕ} (hc : c ≤ 254) : increaseStep c ≤ 254 := by
  have h := Int.floor_le (((255 : ℚ) - (c : ℚ)) * 0.1)
  have h2 : (10 : ℚ) * (⌊((255 : ℚ) - (c : ℚ)) * 0.1⌋ : ℚ) ≤ (255 : ℚ) - (c : ℚ) := by
    nlinarith
  have h3 : (10 : ℤ) * ⌊((255 : ℚ) - (c : ℚ)) * 0.1⌋ ≤ 255 - (c : ℤ) := by
    exact_mod_cast h2
  unfold increaseStep
  omega

/-- If every foreground channel is at most 254 and the target ratio is
unmeetable (above 21), the guard of the increase loop stays true and the
channel updates keep every channel at most 254, so the loop never exits,
whatever its budget. -/
theorem increaseLoop_diverges (bgR bgG bgB : ℕ) (ratio : ℝ) (hratio : 21 < ratio)
    (hbgR : bgR ≤ 255) (hbgG : bgG ≤ 255) (hbgB : bgB ≤ 255) :
    ∀ fuel fgR fgG fgB, fgR ≤ 254 → fgG ≤ 254 → fgB ≤ 254 →
      increaseLuminanceLoop bgR bgG bgB ratio fuel fgR fgG fgB = none := by
  intro fuel
  induction fuel with
  | zero =>
    intro fgR fgG fgB h1 h2 h3
    rw [increaseLuminanceLoop]
    have hfg := rgbRelativeLuminance2_bounds fgR fgB fgG (by omega) (by omega) (by omega)
    have hbg := rgbRelativeLuminance2_bounds bgR bgG bgB hbgR hbgG hbgB
    have hcr := contrastRatio_le_21 hfg.1 hfg.2 hbg.1 hbg.2
    rw [if_pos ⟨lt_of_le_of_lt hcr hratio, Or.inl (by omega)⟩]
  | succ n ih =>
    intro fgR fgG fgB h1 h2 h3
    rw [increaseLuminanceLoop]
    have hfg := rgbRelativeLuminance2_bounds fgR fgB fgG (by omega) (by omega) (by omega)
    have hbg := rgbRelativeLuminance2_bounds bgR bgG bgB hbgR hbgG hbgB
    have hcr := contrastRatio_le_21 hfg.1 hfg.2 hbg.1 hbg.2
    rw [if_pos ⟨lt_of_le_of_lt hcr hratio, Or.inl (by omega)⟩]
    exact ih _ _ _ (increaseStep_le_254 h1) (increaseStep_le_254 h2) (increaseStep_le_254 h3)

/-- C2 (refuting theorem): with background `#000000`, foreground `#fafafa`
(every channel 250) and target ratio 25, the `increaseLuminance` loop never
exits: each channel increment is `Math.floor(5 * 0.1) = 0`, the state never
changes, and the guard stays true, for every iteration budget.  The claimed
256-iteration bound fails. -/
theorem increaseLuminance_diverges (fuel : ℕ) :
    increaseLuminance ⟨"#000000", 0x000000FF⟩ ⟨"#fafafa", 0xFAFAFAFF⟩ 25 fuel = none := by
  simp only [increaseLuminance]
  rw [show (((⟨"#000000", 0x000000FF⟩ : IColor).rgba >>> 24) &&& 0xFF) = 0 from by decide,
    show (((⟨"#000000", 0x000000FF⟩ : IColor).rgba >>> 16) &&& 0xFF) = 0 from by decide,
    show (((⟨"#000000", 0x000000FF⟩ : IColor).rgba >>> 8) &&& 0xFF) = 0 from by decide,
    show (((⟨"#fafafa", 0xFAFAFAFF⟩ : IColor).rgba >>> 24) &&& 0xFF) = 250 from by decide,
    show (((⟨"#fafafa", 0xFAFAFAFF⟩ : IColor).rgba >>> 16) &&& 0xFF) = 250 from by decide,
    show (((⟨"#fafafa", 0xFAFAFAFF⟩ : IColor).rgba >>> 8) &&& 0xFF) = 250 from by decide]
  rw [increaseLoop_diverges 0 0 0 25 (by norm_num) (by norm_num) (by norm_num) (by norm_num)
    fuel 250 250 250 (by norm_num) (by norm_num) (by norm_num)]
  rfl

/-- Any foreground whose channels are all at most 254 makes
`increaseLuminance` spin forever once the target ratio exceeds 21. -/
theorem increaseLuminance_none (bg fg : IColor) (ratio : ℝ) (fuel : ℕ) (hratio : 21 < ratio)
    (hfgR : (fg.rgba >>> 24) &&& 0xFF ≤ 254) (hfgG : (fg.rgba >>> 16) &&& 0xFF ≤ 254)
    (hfgB : (fg.rgba >>> 8) &&& 0xFF ≤ 254) :
    increaseLuminance bg fg ratio fuel = none := by
  simp only [increaseLuminance]
  rw [increaseLoop_diverges _ _ _ ratio hratio (and_255_le _) (and_255_le _) (and_255_le _)
    fuel _ _ _ hfgR hfgG hfgB]
  rfl

/-- C3 (refuting theorem): with background and foreground both `#000000`
(equal luminances, so the increase path is taken) and the unmeetable target
ratio 25, `ensureContrastRatio` never returns at all — the increase loop's
channels stall below 255 (at 246) and the loop runs forever — rather than
returning a `#ffffff`-saturated color. -/
theorem ensureContrastRatio_unmeetable_diverges (fuel : ℕ) :
    ensureContrastRatio ⟨"#000000", 0x000000FF⟩ ⟨"#000000", 0x000000FF⟩ 25 fuel = none := by
  have hL : rgbRelativeLuminance ((0x000000FF : ℕ) >>> 8) = 0 := by
    rw [show ((0x000000FF : ℕ) >>> 8) = 0 from by decide]
    simp only [rgbRelativeLuminance]
    rw [show ((0 : ℕ) >>> 16) &&& 0xFF = 0 from by decide,
      show ((0 : ℕ) >>> 8) &&& 0xFF = 0 from by decide,
      show (0 : ℕ) &&& 0xFF = 0 from by decide]
    simp only [rgbRelativeLuminance2]
    norm_num
  have hcr : contrastRatio 0 0 = 1 := by
    unfold contrastRatio
    norm_num
  have hinc : increaseLuminance ⟨"#000000", 0x000000FF⟩ ⟨"#000000", 0x000000FF⟩ 25 fuel = none :=
    increaseLuminance_none _ _ _ _ (by norm_num) (by decide) (by decide) (by decide)
  simp only [ensureContrastRatio, hL, hcr, hinc]
  norm_num

/-! ### Loop characterizations and invariants -/

/-- C4: inside both enforcement loops, the per-iteration recomputation of the
foreground's luminance passes the current channels as (R, B, G) — green and
blue swapped — while the background's luminance in the same guard and the
luminance unpacking used outside the loops (`rgbRelativeLuminance`) are in
canonical (R, G, B) order; and the swap is semantically significant: the two
orders give different luminances already at (0, 10, 0). -/
theorem loops_swap_green_and_blue :
    (∀ bgR bgG bgB : ℕ, ∀ ratio : ℝ, ∀ fgR fgG fgB : ℕ,
      reduceLuminanceLoop bgR bgG bgB ratio fgR fgG fgB =
        if contrastRatio (rgbRelativeLuminance2 fgR fgB fgG)
            (rgbRelativeLuminance2 bgR bgG bgB) < ratio
            ∧ (0 < fgR ∨ 0 < fgG ∨ 0 < fgB) then
          reduceLuminanceLoop bgR bgG bgB ratio
            (reduceStep fgR) (reduceStep fgG) (reduceStep fgB)
        else (fgR, fgG, fgB)) ∧
    (∀ bgR bgG bgB : ℕ, ∀ ratio : ℝ, ∀ fuel fgR fgG fgB : ℕ,
      increaseLuminanceLoop bgR bgG bgB ratio (fuel + 1) fgR fgG fgB =
        if contrastRatio (rgbRelativeLuminance2 fgR fgB fgG)
            (rgbRelativeLuminance2 bgR bgG bgB) < ratio
            ∧ (fgR < 0xFF ∨ fgG < 0xFF ∨ fgB < 0xFF) then
          increaseLuminanceLoop bgR bgG bgB ratio fuel
            (increaseStep fgR) (increaseStep fgG) (increaseStep fgB)
        else some (fgR, fgG, fgB)) ∧
    rgbRelativeLuminance2 0 10 0 ≠ rgbRelativeLuminance2 0 0 10 ∧
    (∀ rgb : ℕ, rgbRelativeLuminance rgb =
      rgbRelativeLuminance2 ((rgb >>> 16) &&& 0xFF) ((rgb >>> 8) &&& 0xFF) (rgb &&& 0xFF)) := by
  refine ⟨?_, ?_, ?_, fun _ => rfl⟩
  · intro bgR bgG bgB ratio fgR fgG fgB
    rw [reduceLuminanceLoop]
    split_ifs <;> rfl
  · intro bgR bgG bgB ratio fuel fgR fgG fgB
    rw [increaseLuminanceLoop]
  · simp only [rgbRelativeLuminance2]
    rw [if_pos (by norm_num : ((0 : ℕ) : ℝ) / 255 ≤ 0.03928),
      if_pos (by norm_num : ((10 : ℕ) : ℝ) / 255 ≤ 0.03928)]
    norm_num

/-- C1: `ensureContrastRatio` yields the "no adjustment" sentinel exactly when
the contrast ratio of the two packed values (alpha byte shifted out) already
meets the target; when it adjusts, it darkens via `reduceLuminance` when the
foreground's luminance is strictly below the background's, and brightens via
`increaseLuminance` otherwise. -/
theorem ensureContrastRatio_characterization (bg fg : IColor) (ratio : ℝ) (fuel : ℕ) :
    (ensureContrastRatio bg fg ratio fuel = some none ↔
      ratio ≤ contrastRatio (rgbRelativeLuminance (bg.rgba >>> 8))
        (rgbRelativeLuminance (fg.rgba >>> 8))) ∧
    (contrastRatio (rgbRelativeLuminance (bg.rgba >>> 8))
        (rgbRelativeLuminance (fg.rgba >>> 8)) < ratio →
      ensureContrastRatio bg fg ratio fuel =
        if rgbRelativeLuminance (fg.rgba >>> 8) < rgbRelativeLuminance (bg.rgba >>> 8) then
          some (some (reduceLuminance bg fg ratio))
        else
          (increaseLuminance bg fg ratio fuel).map some) := by
  constructor
  · constructor
    · intro h
      by_contra hl
      rw [not_le] at hl
      simp only [ensureContrastRatio] at h
      rw [if_pos hl] at h
      split_ifs at h with h2
      · simp at h
      · rcases hI : increaseLuminance bg fg ratio fuel with _ | c <;> rw [hI] at h <;>
          simp at h
    · intro h
      simp only [ensureContrastRatio]
      rw [if_neg (not_lt.2 h)]
  · intro h
    simp only [ensureContrastRatio]
    rw [if_pos h]

/-- Witness for C1: equal black colors already satisfy a target ratio of 1,
so the sentinel is returned. -/
theorem ensureContrastRatio_characterization_witness :
    ensureContrastRatio ⟨"#000000", 0x000000FF⟩ ⟨"#000000", 0x000000FF⟩ 1 0 = some none := by
  apply (ensureContrastRatio_characterization ⟨"#000000", 0x000000FF⟩
    ⟨"#000000", 0x000000FF⟩ 1 0).1.mpr
  show (1 : ℝ) ≤ contrastRatio (rgbRelativeLuminance ((0x000000FF : ℕ) >>> 8))
    (rgbRelativeLuminance ((0x000000FF : ℕ) >>> 8))
  rw [show ((0x000000FF : ℕ) >>> 8) = 0 from by decide]
  have hL : rgbRelativeLuminance 0 = 0 := by
    simp only [rgbRelativeLuminance]
    rw [show ((0 : ℕ) >>> 16) &&& 0xFF = 0 from by decide,
      show ((0 : ℕ) >>> 8) &&& 0xFF = 0 from by decide,
      show (0 : ℕ) &&& 0xFF = 0 from by decide]
    simp only [rgbRelativeLuminance2]
    norm_num
  rw [hL]
  unfold contrastRatio
  norm_num

theorem increaseStep_le_255 (c : ℕ) : increaseStep c ≤ 255 :=
  Nat.min_le_left _ _

/-- The reduce loop keeps every channel in range. -/
theorem reduceLoop_le_255 (bgR bgG bgB : ℕ) (ratio : ℝ) :
    ∀ n fgR fgG fgB, fgR + fgG + fgB ≤ n → fgR ≤ 255 → fgG ≤ 255 → fgB ≤ 255 →
      (reduceLuminanceLoop bgR bgG bgB ratio fgR fgG fgB).1 ≤ 255 ∧
      (reduceLuminanceLoop bgR bgG bgB ratio fgR fgG fgB).2.1 ≤ 255 ∧
      (reduceLuminanceLoop bgR bgG bgB ratio fgR fgG fgB).2.2 ≤ 255 := by
  intro n
  induction n with
  | zero =>
    intro fgR fgG fgB hsum h1 h2 h3
    rw [reduceLuminanceLoop]
    rw [dif_neg (fun hcon => by rcases hcon.2 with h | h | h <;> omega)]
    exact ⟨h1, h2, h3⟩
  | succ n ih =>
    intro fgR fgG fgB hsum h1 h2 h3
    rw [reduceLuminanceLoop]
    split_ifs with hcon
    · have e1 := reduceStep_le fgR
      have e2 := reduceStep_le fgG
      have e3 := reduceStep_le fgB
      have hd : reduceStep fgR + reduceStep fgG + reduceStep fgB ≤ n := by
        rcases hcon.2 with hp | hp | hp
        · have := reduceStep_lt hp; omega
        · have := reduceStep_lt hp; omega
        · have := reduceStep_lt hp; omega
      exact ih _ _ _ hd (by omega) (by omega) (by omega)
    · exact ⟨h1, h2, h3⟩

/-- When the increase loop does exit, every channel of its result is in
range. -/
theorem increaseLoop_le_255 (bgR bgG bgB : ℕ) (ratio : ℝ) :
    ∀ fuel fgR fgG fgB t,
      increaseLuminanceLoop bgR bgG bgB ratio fuel fgR fgG fgB = some t →
      fgR ≤ 255 → fgG ≤ 255 → fgB ≤ 255 →
      t.1 ≤ 255 ∧ t.2.1 ≤ 255 ∧ t.2.2 ≤ 255 := by
  intro fuel
  induction fuel with
  | zero =>
    intro fgR fgG fgB t ht h1 h2 h3
    rw [increaseLuminanceLoop] at ht
    split_ifs at ht
    obtain rfl : (fgR, fgG, fgB) = t := by simpa using ht
    exact ⟨h1, h2, h3⟩
  | succ n ih =>
    intro fgR fgG fgB t ht h1 h2 h3
    rw [increaseLuminanceLoop] at ht
    split_ifs at ht
    · exact ih _ _ _ _ ht (increaseStep_le_255 _) (increaseStep_le_255 _)
        (increaseStep_le_255 _)
    · obtain rfl : (fgR, fgG, fgB) = t := by simpa using ht
      exact ⟨h1, h2, h3⟩

/-- C9: the colors built by `reduceLuminance` and `increaseLuminance` always
carry a fully opaque packed alpha byte (255), regardless of the foreground's
original alpha byte, which is silently discarded. -/
theorem adjusted_colors_alpha255 (bg fg : IColor) (ratio : ℝ) :
    (reduceLuminance bg fg ratio).rgba &&& 0xFF = 255 ∧
    ∀ fuel c, increaseLuminance bg fg ratio fuel = some c → c.rgba &&& 0xFF = 255 := by
  constructor
  · simp only [reduceLuminance]
    have h := reduceLoop_le_255 ((bg.rgba >>> 24) &&& 0xFF) ((bg.rgba >>> 16) &&& 0xFF)
      ((bg.rgba >>> 8) &&& 0xFF) ratio
      (((fg.rgba >>> 24) &&& 0xFF) + ((fg.rgba >>> 16) &&& 0xFF) + ((fg.rgba >>> 8) &&& 0xFF))
      ((fg.rgba >>> 24) &&& 0xFF) ((fg.rgba >>> 16) &&& 0xFF) ((fg.rgba >>> 8) &&& 0xFF)
      (le_refl _) (and_255_le _) (and_255_le _) (and_255_le _)
    exact toRgba_byteA _ _ _ _ h.1 h.2.1 h.2.2 (le_refl 255)
  · intro fuel c hc
    simp only [increaseLuminance] at hc
    rcases ht : increaseLuminanceLoop ((bg.rgba >>> 24) &&& 0xFF) ((bg.rgba >>> 16) &&& 0xFF)
        ((bg.rgba >>> 8) &&& 0xFF) ratio fuel
        ((fg.rgba >>> 24) &&& 0xFF) ((fg.rgba >>> 16) &&& 0xFF) ((fg.rgba >>> 8) &&& 0xFF)
      with _ | t
    · rw [ht] at hc
      simp at hc
    · rw [ht] at hc
      simp only [Option.map_some'] at hc
      obtain rfl : ({ css := toCss t.1 t.2.1 t.2.2, rgba := toRgba t.1 t.2.1 t.2.2 0xFF }
          : IColor) = c := by simpa using hc
      have h := increaseLoop_le_255 _ _ _ ratio fuel _ _ _ t ht
        (and_255_le _) (and_255_le _) (and_255_le _)
      exact toRgba_byteA _ _ _ _ h.1 h.2.1 h.2.2 (le_refl 255)

/-- Witness for C9: a foreground with a translucent alpha byte (0x80) on the
reduce side, and a white foreground (whose increase loop exits immediately)
on the increase side; both results are opaque. -/
theorem adjusted_colors_alpha255_witness :
    (reduceLuminance ⟨"#000000", 0x000000FF⟩ ⟨"#808080", 0x80808080⟩ 4.5).rgba &&& 0xFF = 255 ∧
    (⟨toCss 255 255 255, toRgba 255 255 255 0xFF⟩ : IColor).rgba &&& 0xFF = 255 := by
  have hinc : increaseLuminance ⟨"#000000", 0x000000FF⟩ ⟨"#ffffff", 0xFFFFFFFF⟩ 25 0 =
      some ⟨toCss 255 255 255, toRgba 255 255 255 0xFF⟩ := by
    simp only [increaseLuminance]
    rw [show (((⟨"#ffffff", 0xFFFFFFFF⟩ : IColor).rgba >>> 24) &&& 0xFF) = 255 from by decide,
      show (((⟨"#ffffff", 0xFFFFFFFF⟩ : IColor).rgba >>> 16) &&& 0xFF) = 255 from by decide,
      show (((⟨"#ffffff", 0xFFFFFFFF⟩ : IColor).rgba >>> 8) &&& 0xFF) = 255 from by decide]
    rw [increaseLuminanceLoop]
    rw [if_neg (fun hcon => by rcases hcon.2 with h | h | h <;> omega)]
    rfl
  exact ⟨(adjusted_colors_alpha255 ⟨"#000000", 0x000000FF⟩ ⟨"#808080", 0x80808080⟩ 4.5).1,
    (adjusted_colors_alpha255 ⟨"#000000", 0x000000FF⟩ ⟨"#ffffff", 0xFFFFFFFF⟩ 25).2 0 _ hinc⟩

/-! ### Blend arithmetic -/

theorem blend_channel_bounds (bgc fgc al : ℕ) (hbg : bgc ≤ 255) (hfg : fgc ≤ 255)
    (hal : al ≤ 255) :
    (0 : ℤ) ≤ (bgc : ℤ) + round (((fgc : ℚ) - bgc) * ((al : ℚ) / 255)) ∧
    (bgc : ℤ) + round (((fgc : ℚ) - bgc) * ((al : ℚ) / 255)) ≤ 255 := by
  have ha0 : (0 : ℚ) ≤ (al : ℚ) / 255 := by positivity
  have ha1 : ((al : ℚ) / 255) ≤ 1 := by
    rw [div_le_one (by norm_num)]
    exact_mod_cast hal
  have hfg' : (fgc : ℚ) ≤ 255 := by exact_mod_cast hfg
  have hbg' : (bgc : ℚ) ≤ 255 := by exact_mod_cast hbg
  have hfg0 : (0 : ℚ) ≤ (fgc : ℚ) := by positivity
  have hbg0 : (0 : ℚ) ≤ (bgc : ℚ) := by positivity
  have hlo : -(bgc : ℚ) ≤ ((fgc : ℚ) - bgc) * ((al : ℚ) / 255) := by
    rcases le_or_lt (bgc : ℚ) fgc with hc | hc
    · nlinarith
    · nlinarith
  have hhi : ((fgc : ℚ) - bgc) * ((al : ℚ) / 255) ≤ 255 - (bgc : ℚ) := by
    rcases le_or_lt (bgc : ℚ) fgc with hc | hc
    · nlinarith
    · nlinarith
  constructor
  · have h1 : -(bgc : ℤ) ≤ round (((fgc : ℚ) - bgc) * ((al : ℚ) / 255)) := by
      rw [round_eq, Int.le_floor]
      push_cast
      linarith
    omega
  · have h2 : round (((fgc : ℚ) - bgc) * ((al : ℚ) / 255)) ≤ 255 - (bgc : ℤ) := by
      rw [round_eq]
      have h3 := Int.floor_mono (show ((fgc : ℚ) - bgc) * ((al : ℚ) / 255) + 1 / 2 ≤
        ((255 - (bgc : ℤ) : ℤ) : ℚ) + 1 / 2 by push_cast; linarith)
      rwa [Int.floor_int_add, show ⌊(1 / 2 : ℚ)⌋ = 0 by norm_num, add_zero] at h3
    omega

/-- The interpolated value `(fgc - bgc) * al / 255` is never exactly half-way
between two integers (a tie would force the even number `2 * (fgc - bgc) * al`
to equal an odd multiple of 255), so `round` picks the unique nearest
integer and every standard round-to-nearest rule agrees with it. -/
theorem blend_no_tie (bgc fgc al : ℕ) :
    |((fgc : ℚ) - bgc) * ((al : ℚ) / 255) -
      (round (((fgc : ℚ) - bgc) * ((al : ℚ) / 255)) : ℤ)| < 1 / 2 := by
  set x : ℚ := ((fgc : ℚ) - bgc) * ((al : ℚ) / 255) with hxdef
  set k : ℤ := round x with hkdef
  rcases lt_or_le |x - (k : ℚ)| (1 / 2) with h | h
  · exact h
  · exfalso
    have habs : |x - (k : ℚ)| ≤ 1 / 2 := by
      rw [hkdef]
      exact abs_sub_round x
    have heq : |x - (k : ℚ)| = 1 / 2 := le_antisymm habs h
    have h255x : (255 : ℚ) * x = ((fgc : ℚ) - bgc) * al := by
      rw [hxdef]
      ring
    rcases (abs_eq (by norm_num : (0 : ℚ) ≤ 1 / 2)).1 heq with he | he
    · have h2 : (2 : ℚ) * (((fgc : ℚ) - bgc) * al) = 510 * k + 255 := by
        linarith [he, h255x]
      have h3 : (2 : ℤ) * (((fgc : ℤ) - bgc) * al) = 510 * k + 255 := by
        exact_mod_cast h2
      omega
    · have h2 : (2 : ℚ) * (((fgc : ℚ) - bgc) * al) = 510 * k - 255 := by
        linarith [he, h255x]
      have h3 : (2 : ℤ) * (((fgc : ℤ) - bgc) * al) = 510 * k - 255 := by
        exact_mod_cast h2
      omega

/-- C5: for a foreground whose alpha byte is strictly below 255, `blend`
computes every channel as `bg + round((fg - bg) * alpha/255)` with the unique
nearest integer, stays inside [0, 255] without clamping, forces the packed
alpha byte of the result to 255, and with alpha byte 0 returns exactly the
background's channels. -/
theorem blend_spec (bg fg : IColor) (h : fg.rgba &&& 0xFF < 255) : BlendSpec bg fg := by
  have hα : ¬(((fg.rgba &&& 0xFF : ℕ) : ℚ) / 255 = 1) := by
    intro hEq
    rw [div_eq_one_iff_eq (by norm_num : (255 : ℚ) ≠ 0)] at hEq
    have : (fg.rgba &&& 0xFF : ℕ) = 255 := by exact_mod_cast hEq
    omega
  simp only [BlendSpec, blend, if_neg hα]
  obtain ⟨al, hal⟩ : ∃ v, fg.rgba &&& 0xFF = v := ⟨_, rfl⟩
  obtain ⟨fgR, hfgR⟩ : ∃ v, (fg.rgba >>> 24) &&& 0xFF = v := ⟨_, rfl⟩
  obtain ⟨fgG, hfgG⟩ : ∃ v, (fg.rgba >>> 16) &&& 0xFF = v := ⟨_, rfl⟩
  obtain ⟨fgB, hfgB⟩ : ∃ v, (fg.rgba >>> 8) &&& 0xFF = v := ⟨_, rfl⟩
  obtain ⟨bgR, hbgR⟩ : ∃ v, (bg.rgba >>> 24) &&& 0xFF = v := ⟨_, rfl⟩
  obtain ⟨bgG, hbgG⟩ : ∃ v, (bg.rgba >>> 16) &&& 0xFF = v := ⟨_, rfl⟩
  obtain ⟨bgB, hbgB⟩ : ∃ v, (bg.rgba >>> 8) &&& 0xFF = v := ⟨_, rfl⟩
  have halle : al ≤ 255 := hal ▸ and_255_le _
  have hfgRle : fgR ≤ 255 := hfgR ▸ and_255_le _
  have hfgGle : fgG ≤ 255 := hfgG ▸ and_255_le _
  have hfgBle : fgB ≤ 255 := hfgB ▸ and_255_le _
  have hbgRle : bgR ≤ 255 := hbgR ▸ and_255_le _
  have hbgGle : bgG ≤ 255 := hbgG ▸ and_255_le _
  have hbgBle : bgB ≤ 255 := hbgB ▸ and_255_le _
  rw [hal, hfgR, hfgG, hfgB, hbgR, hbgG, hbgB]
  have hR := blend_channel_bounds bgR fgR al hbgRle hfgRle halle
  have hG := blend_channel_bounds bgG fgG al hbgGle hfgGle halle
  have hB := blend_channel_bounds bgB fgB al hbgBle hfgBle halle
  have hRN : ((bgR : ℤ) + round (((fgR : ℚ) - bgR) * ((al : ℚ) / 255))).toNat ≤ 255 := by
    omega
  have hGN : ((bgG : ℤ) + round (((fgG : ℚ) - bgG) * ((al : ℚ) / 255))).toNat ≤ 255 := by
    omega
  have hBN : ((bgB : ℤ) + round (((fgB : ℚ) - bgB) * ((al : ℚ) / 255))).toNat ≤ 255 := by
    omega
  refine ⟨?_, ?_, ?_, hR, hG, hB, ?_, blend_no_tie bgR fgR al, blend_no_tie bgG fgG al,
    blend_no_tie bgB fgB al, ?_⟩
  · rw [toRgba_byteR _ _ _ _ hRN hGN hBN (le_refl 255)]
    exact Int.toNat_of_nonneg hR.1
  · rw [toRgba_byteG _ _ _ _ hRN hGN hBN (le_refl 255)]
    exact Int.toNat_of_nonneg hG.1
  · rw [toRgba_byteB _ _ _ _ hRN hGN hBN (le_refl 255)]
    exact Int.toNat_of_nonneg hB.1
  · exact toRgba_byteA _ _ _ _ hRN hGN hBN (le_refl 255)
  · intro h0
    subst h0
    have hz : ∀ c d : ℕ, (((c : ℚ)) - d) * (((0 : ℕ) : ℚ) / 255) = 0 := by
      intro c d
      norm_num
    rw [toRgba_byteR _ _ _ _ hRN hGN hBN (le_refl 255),
      toRgba_byteG _ _ _ _ hRN hGN hBN (le_refl 255),
      toRgba_byteB _ _ _ _ hRN hGN hBN (le_refl 255)]
    rw [hz fgR bgR, hz fgG bgG, hz fgB bgB]
    simp

/-- Witness for C5: a translucent foreground (alpha byte 0) over an arbitrary
background. -/
theorem blend_spec_witness :
    (0x80808000 : ℕ) &&& 0xFF < 255 ∧ BlendSpec ⟨"#112233", 0x112233FF⟩ ⟨"#808080", 0x80808000⟩ :=
  ⟨by decide, blend_spec ⟨"#112233", 0x112233FF⟩ ⟨"#808080", 0x80808000⟩ (by decide)⟩

/-! ### Hex printing and parsing lemmas -/

theorem hexDigitVal_hexChar {k : ℕ} (hk : k < 16) : hexDigitVal (hexChar k) = some k := by
  interval_cases k <;> decide

theorem hexChar_not_ws {k : ℕ} (hk : k < 16) : (hexChar k).isWhitespace = false := by
  interval_cases k <;> decide

theorem hexChar_ne_plus {k : ℕ} (hk : k < 16) : hexChar k ≠ '+' := by
  interval_cases k <;> decide

theorem hexChar_ne_minus {k : ℕ} (hk : k < 16) : hexChar k ≠ '-' := by
  interval_cases k <;> decide

theorem hexChar_ne_x {k : ℕ} (hk : k < 16) : hexChar k ≠ 'x' ∧ hexChar k ≠ 'X' := by
  interval_cases k <;> exact ⟨by decide, by decide⟩

theorem isLowerHexDigit_hexChar {k : ℕ} (hk : k < 16) : isLowerHexDigit (hexChar k) := by
  unfold isLowerHexDigit
  interval_cases k <;> decide

theorem natToHexList_small {f n : ℕ} (hf : 1 ≤ f) (hn : n < 16) :
    natToHexList f n = [hexChar n] := by
  cases f with
  | zero => omega
  | succ f => simp only [natToHexList, if_pos hn]

theorem toPaddedHex_eq {c : ℕ} (hc : c ≤ 255) :
    toPaddedHex c = ⟨[hexChar (c / 16), hexChar (c % 16)]⟩ := by
  rcases lt_or_le c 16 with h | h
  · simp only [toPaddedHex, natToHex]
    rw [natToHexList_small (by omega) h]
    rw [Nat.div_eq_of_lt h, Nat.mod_eq_of_lt h]
    rfl
  · simp only [toPaddedHex, natToHex]
    have h1 : ¬ c < 16 := by omega
    rw [show natToHexList (c + 1) c = natToHexList c (c / 16) ++ [hexChar (c % 16)] from by
      rw [natToHexList, if_neg h1]]
    rw [natToHexList_small (by omega) (by omega : c / 16 < 16)]
    rfl

theorem dropSign_cons {c : Char} {t : List Char} (h1 : c ≠ '+') (h2 : c ≠ '-') :
    dropSign (c :: t) = c :: t := by
  unfold dropSign
  split <;> simp_all

theorem dropHexMark_cons {c1 c2 : Char} {t : List Char} (h1 : c2 ≠ 'x') (h2 : c2 ≠ 'X') :
    dropHexMark (c1 :: c2 :: t) = c1 :: c2 :: t := by
  unfold dropHexMark
  split <;> simp_all

theorem toCss_data {r g b : ℕ} (hr : r ≤ 255) (hg : g ≤ 255) (hb : b ≤ 255) :
    toCss r g b = ⟨['#', hexChar (r / 16), hexChar (r % 16), hexChar (g / 16),
      hexChar (g % 16), hexChar (b / 16), hexChar (b % 16)]⟩ := by
  unfold toCss
  rw [toPaddedHex_eq hr, toPaddedHex_eq hg, toPaddedHex_eq hb]
  rfl

theorem jsParseIntHex_toCss {r g b : ℕ} (hr : r ≤ 255) (hg : g ≤ 255) (hb : b ≤ 255) :
    jsParseIntHex ((toCss r g b).drop 1) = some ((r * 65536 + g * 256 + b : ℕ) : ℤ) := by
  have h1 : r / 16 < 16 := by omega
  have h2 : r % 16 < 16 := by omega
  have h3 : g / 16 < 16 := by omega
  have h4 : g % 16 < 16 := by omega
  have h5 : b / 16 < 16 := by omega
  have h6 : b % 16 < 16 := by omega
  rw [toCss_data hr hg hb, String.drop_eq]
  show jsParseIntHex ⟨[hexChar (r / 16), hexChar (r % 16), hexChar (g / 16),
    hexChar (g % 16), hexChar (b / 16), hexChar (b % 16)]⟩ = _
  unfold jsParseIntHex
  simp only [String.toList, List.dropWhile_cons, hexChar_not_ws h1, Bool.false_eq_true,
    if_false, List.head?_cons, Option.some.injEq, hexChar_ne_minus h1, if_false,
    dropSign_cons (hexChar_ne_plus h1) (hexChar_ne_minus h1),
    dropHexMark_cons (hexChar_ne_x h2).1 (hexChar_ne_x h2).2,
    List.takeWhile_cons, hexDigitVal_hexChar h1, hexDigitVal_hexChar h2,
    hexDigitVal_hexChar h3, hexDigitVal_hexChar h4, hexDigitVal_hexChar h5,
    hexDigitVal_hexChar h6, Option.isSome_some, if_true, List.takeWhile_nil,
    List.isEmpty_cons, List.foldl_cons, List.foldl_nil, Option.getD_some, Bool.false_eq_true,
    if_false, one_mul]
  congr 1
  omega

/-- C6: for channels in 0–255, `toCss` produces a `#[0-9a-f]{6}` string, and
`fromCss` of that string recovers the same R, G, B bytes, always with an
opaque (255) alpha byte, keeping the input string as the `css` field. -/
theorem toCss_fromCss_roundTrip (r g b : ℕ) (hr : r ≤ 255) (hg : g ≤ 255) (hb : b ≤ 255) :
    CssRoundTrip r g b := by
  unfold CssRoundTrip
  have hdata := toCss_data hr hg hb
  have hparse := jsParseIntHex_toCss hr hg hb
  constructor
  · rw [hdata]
    refine ⟨rfl, rfl, ?_⟩
    intro c hc
    simp only [String.toList, List.drop_succ_cons, List.drop_zero, List.mem_cons,
      List.not_mem_nil, or_false] at hc
    rcases hc with rfl | rfl | rfl | rfl | rfl | rfl
    · exact isLowerHexDigit_hexChar (by omega)
    · exact isLowerHexDigit_hexChar (by omega)
    · exact isLowerHexDigit_hexChar (by omega)
    · exact isLowerHexDigit_hexChar (by omega)
    · exact isLowerHexDigit_hexChar (by omega)
    · exact isLowerHexDigit_hexChar (by omega)
  · unfold fromCss
    rw [hparse]
    simp only [Option.getD_some]
    have hmod : (((r * 65536 + g * 256 + b : ℕ) : ℤ) * 2 ^ 8) % 2 ^ 32 =
        ((r * 65536 + g * 256 + b : ℕ) : ℤ) * 2 ^ 8 := by
      apply Int.emod_eq_of_lt
      · positivity
      · exact_mod_cast (by omega : (r * 65536 + g * 256 + b) * 2 ^ 8 < 2 ^ 32)
    rw [hmod, show (((r * 65536 + g * 256 + b : ℕ) : ℤ) * 2 ^ 8) =
        (((r * 65536 + g * 256 + b) * 2 ^ 8 : ℕ) : ℤ) by push_cast; ring,
      Int.toNat_natCast]
    have hor : (r * 65536 + g * 256 + b) * 2 ^ 8 ||| 255 =
        (r * 65536 + g * 256 + b) * 2 ^ 8 + 255 := by
      rw [show (r * 65536 + g * 256 + b) * 2 ^ 8 = 2 ^ 8 * (r * 65536 + g * 256 + b)
        from Nat.mul_comm _ _]
      exact (Nat.mul_add_lt_is_or (by norm_num) _).symm
    rw [hor]
    refine ⟨?_, ?_, ?_, ?_, trivial⟩
    · rw [Nat.shiftRight_eq_div_pow, and_255_eq_mod]
      omega
    · rw [Nat.shiftRight_eq_div_pow, and_255_eq_mod]
      omega
    · rw [Nat.shiftRight_eq_div_pow, and_255_eq_mod]
      omega
    · rw [and_255_eq_mod]
      omega

/-- Witness for C6 at channels (18, 252, 7), which exercise both the padded
and unpadded hex-digit branches. -/
theorem toCss_fromCss_roundTrip_witness :
    (18 : ℕ) ≤ 255 ∧ (252 : ℕ) ≤ 255 ∧ (7 : ℕ) ≤ 255 ∧ CssRoundTrip 18 252 7 :=
  ⟨by decide, by decide, by decide, toCss_fromCss_roundTrip 18 252 7 (by decide) (by decide)
    (by decide)⟩
